import Mathlib

/-
Verification of the realoptions LSM (Least Squares Monte Carlo) valuation
engine against its design description.

The Go source consists of two components on a `ProjectProcess` value:
`Simulate`, which generates correlated net-cash-flow and cost-to-completion
paths, and `Lsm`, which performs backward value-function iteration with a
per-period polynomial regression and returns the mean discounted time-0
value across simulation runs.

Modelling conventions:
- float64 arithmetic is modelled over a generic linear ordered field `K`
  (instantiated with ℚ for concrete evaluations); `math.Exp` and
  `math.Sqrt` (which the source binds to package-level aliases
  `var exp = math.Exp` and `var sqrt = math.Sqrt`) are passed as explicit
  function arguments `E` and `S`;
- the stream of standard-normal draws produced by `rand.NormFloat64` is
  modelled as a `Draws` record giving, for every (run, period), the pair
  of raw draws consumed at that step;
- the gonum least-squares solve `coefficients.SolveVec(basisMatrix,
  nextVal)` is an external library call; it is modelled by an abstract
  `Solver` argument mapping (basis matrix, run count, target vector) to a
  coefficient vector, and properties that depend on the fit are stated
  relative to that argument;
- Go `int` fields are modelled as ℤ, matrix indices as ℕ; the Go
  float-to-int conversion `int(x)` (truncation toward zero) is `trunc`.
-/

namespace RealOptions

/-- CashProcess contains the assumptions of the cash flow simulation. -/
structure CashProcess (K : Type) where
  AnnualCashFlow : K
  Drift : K
  Volatility : K
  TerminalMultiplier : K
  RiskPremium : K

/-- CostProcess is the assumptions of the cost and investment process. -/
structure CostProcess (K : Type) where
  Investment : K
  TotalExpectedCost : K
  Volatility : K
  FailureProb : K

/-- Simulation holds the assumptions for the Monte Carlo simulation. -/
structure Simulation (K : Type) where
  TimeStep : K
  PatentLength : ℤ
  Runs : ℤ
  PolynomialOrder : ℤ

/-- ProjectProcess contains the correlated structures of the cost and cash
flow processes comprising the project, mirroring the Go struct with its
embedded fields. -/
structure ProjectProcess (K : Type) where
  CashProcess : CashProcess K
  CostProcess : CostProcess K
  Correlation : K
  RiskFreeRate : K
  Simulation : Simulation K

/-- Draws models the stream of independent standard-normal variates:
at each (run, period) the simulator consumes `costEps run period` for the
cost shock and `cashAux run period` as the auxiliary normal used to build
the correlated cash shock. -/
structure Draws (K : Type) where
  costEps : ℕ → ℕ → K
  cashAux : ℕ → ℕ → K

variable {K : Type} [LinearOrderedField K] [FloorRing K]

/-- square the input (source helper `sqr`). -/
def sqr (x : K) : K := x * x

/-- polynomial basis to approximate the value function (source `basis`). -/
def basis (x y : K) : Fin 9 → K :=
  ![1, x, y, x * y, sqr x, sqr y, sqr x * y, x * sqr y, sqr (x * y)]

/-- Go float-to-int conversion: truncation toward zero. -/
def trunc (x : K) : ℤ := if x < 0 then ⌈x⌉ else ⌊x⌋

/-- numberOfPeriods as computed in both Simulate and Lsm:
`int(float64(pp.PatentLength) / pp.TimeStep)`. -/
def numberOfPeriods (pp : ProjectProcess K) : ℤ :=
  trunc ((pp.Simulation.PatentLength : K) / pp.Simulation.TimeStep)

/-- lastPeriod := numberOfPeriods - 1, as a matrix column index. -/
def lastPeriod (pp : ProjectProcess K) : ℕ :=
  (numberOfPeriods pp).toNat - 1

/-- the run count used as a loop bound in Simulate and Lsm. -/
def runsN (pp : ProjectProcess K) : ℕ :=
  pp.Simulation.Runs.toNat

/-- Risk adjusted cash flow drift rate:
`adjCashDrift := pp.CashProcess.Drift - pp.RiskPremium`. -/
def adjCashDrift (pp : ProjectProcess K) : K :=
  pp.CashProcess.Drift - pp.CashProcess.RiskPremium

/-- correlated cash shock consumed at (run, period):
`cashEps := pp.Correlation*costEps + sqrt(1-sqr(pp.Correlation))*rand.NormFloat64()`. -/
def cashEps (pp : ProjectProcess K) (S : K → K) (Z : Draws K) (r p : ℕ) : K :=
  pp.Correlation * Z.costEps r p + S (1 - sqr pp.Correlation) * Z.cashAux r p

/-- one step of the cash flow simulation:
`nextCash := prevCash * exp((adjCashDrift-0.5*sqr(vol))*TimeStep + vol*sqrt(TimeStep)*cashEps)`. -/
def cashStep (pp : ProjectProcess K) (E S : K → K) (prevCash eps : K) : K :=
  prevCash *
    E ((adjCashDrift pp - (1 / 2) * sqr pp.CashProcess.Volatility) * pp.Simulation.TimeStep +
        pp.CashProcess.Volatility * S pp.Simulation.TimeStep * eps)

/-- the simulated net cash flow matrix, cell (run, period); the period-0
step starts from `pp.AnnualCashFlow`, later steps from the previous cell. -/
def netCash (pp : ProjectProcess K) (E S : K → K) (Z : Draws K) (r : ℕ) : ℕ → K
  | 0 => cashStep pp E S pp.CashProcess.AnnualCashFlow (cashEps pp S Z r 0)
  | p + 1 => cashStep pp E S (netCash pp E S Z r p) (cashEps pp S Z r (p + 1))

/-- one step of the cost simulation: if the previous cost is nonzero,
`nextCost := prevCost - Investment*TimeStep + Volatility*sqrt(Investment*prevCost*TimeStep)*costEps`
clamped at zero from below; otherwise the cost stays zero. -/
def costStep (pp : ProjectProcess K) (S : K → K) (prevCost eps : K) : K :=
  if prevCost ≠ 0 then
    let nextCost :=
      prevCost - pp.CostProcess.Investment * pp.Simulation.TimeStep +
        pp.CostProcess.Volatility *
          S (pp.CostProcess.Investment * prevCost * pp.Simulation.TimeStep) * eps
    if nextCost < 0 then 0 else nextCost
  else 0

/-- the simulated cost-to-completion matrix, cell (run, period); the
period-0 step starts from `pp.TotalExpectedCost`. -/
def cost (pp : ProjectProcess K) (S : K → K) (Z : Draws K) (r : ℕ) : ℕ → K
  | 0 => costStep pp S pp.CostProcess.TotalExpectedCost (Z.costEps r 0)
  | p + 1 => costStep pp S (cost pp S Z r p) (Z.costEps r (p + 1))

/-- Simulate returns the correlated cash and cost processes. -/
def Simulate (pp : ProjectProcess K) (E S : K → K) (Z : Draws K) :
    (ℕ → ℕ → K) × (ℕ → ℕ → K) :=
  (fun r p => netCash pp E S Z r p, fun r p => cost pp S Z r p)

/-- terminal column seeding of the value array: a terminal cash flow
multiple if investment is complete, the zero-initialised default otherwise. -/
def termVal (pp : ProjectProcess K) (E S : K → K) (Z : Draws K) (r last : ℕ) : K :=
  if cost pp S Z r last = 0 then
    pp.CashProcess.TerminalMultiplier * netCash pp E S Z r last
  else 0

/-- `cashDiscRate := exp(-1 * pp.RiskFreeRate * pp.TimeStep)`. -/
def cashDiscRate (pp : ProjectProcess K) (E : K → K) : K :=
  E (-1 * pp.RiskFreeRate * pp.Simulation.TimeStep)

/-- `investDiscRate := exp(-1 * (pp.RiskFreeRate + pp.FailureProb) * pp.TimeStep)`. -/
def investDiscRate (pp : ProjectProcess K) (E : K → K) : K :=
  E (-1 * (pp.RiskFreeRate + pp.CostProcess.FailureProb) * pp.Simulation.TimeStep)

/-- abstract model of the gonum least-squares solve
`coefficients.SolveVec(basisMatrix, nextVal)`: from the basis matrix, the
number of observation rows and the target vector, produce the coefficient
vector. -/
def Solver (K : Type) : Type :=
  (ℕ → Fin 9 → K) → ℕ → (ℕ → K) → Fin 9 → K

/-- the basis matrix row built at a period:
`basisMatrix.SetRow(run, basis(costMatrix.At(run, period), cashMatrix.At(run, period)))`. -/
def basisMatrix (pp : ProjectProcess K) (E S : K → K) (Z : Draws K) (p r : ℕ) :
    Fin 9 → K :=
  basis (cost pp S Z r p) (netCash pp E S Z r p)

/-- fitted value `estVal := basisMatrix * coefficients` at a run, with the
coefficients produced by the solver. -/
def estVal (sol : Solver K) (B : ℕ → Fin 9 → K) (runs : ℕ) (y : ℕ → K) (r : ℕ) : K :=
  ∑ j : Fin 9, B r j * sol B runs y j

/-- the regression target: `nextVal.ScaleVec(investDiscRate, valueArray.ColView(period+1))`,
applied uniformly to every run of the next-period value column. -/
def nextValVec (pp : ProjectProcess K) (E : K → K) (col : ℕ → K) (r : ℕ) : K :=
  investDiscRate pp E * col r

/-- the per-run decision rule of the backward induction at period `p`,
where `col` is the already computed value column of period `p+1`:
if still investing, invest only when the fitted value net of the periodic
outlay is positive, storing the realised discounted value net of the
outlay (zero otherwise); if investment is complete, accumulate the period
cash flow plus the discounted next-period value. -/
def valueStep (pp : ProjectProcess K) (E S : K → K) (Z : Draws K) (sol : Solver K)
    (p : ℕ) (col : ℕ → K) (r : ℕ) : K :=
  if cost pp S Z r p ≠ 0 then
    if estVal sol (basisMatrix pp E S Z p) (runsN pp) (fun i => nextValVec pp E col i) r -
          pp.CostProcess.Investment * pp.Simulation.TimeStep > 0 then
      nextValVec pp E col r - pp.CostProcess.Investment * pp.Simulation.TimeStep
    else 0
  else
    netCash pp E S Z r p * pp.Simulation.TimeStep + cashDiscRate pp E * col r

/-- the backward value iteration: `valueCol pp E S Z sol k` is the value
array column of period `lastPeriod - k`; `k = 0` is the terminal column. -/
def valueCol (pp : ProjectProcess K) (E S : K → K) (Z : Draws K) (sol : Solver K) :
    ℕ → ℕ → K
  | 0 => fun r => termVal pp E S Z r (lastPeriod pp)
  | k + 1 => fun r =>
      valueStep pp E S Z sol (lastPeriod pp - (k + 1)) (valueCol pp E S Z sol k) r

/-- the value array cell (run, period) in period indexing. -/
def valueArray (pp : ProjectProcess K) (E S : K → K) (Z : Draws K) (sol : Solver K)
    (r p : ℕ) : K :=
  valueCol pp E S Z sol (lastPeriod pp - p) r

/-- arithmetic mean of the first `n` entries, as computed by `stat.Mean`. -/
def mean (n : ℕ) (f : ℕ → K) : K :=
  (∑ r ∈ Finset.range n, f r) / (n : K)

/-- Lsm evaluates the project using the Least Squares Monte Carlo
algorithm: the period-0 value column scaled by `cashDiscRate*investDiscRate`
and averaged across runs. -/
def Lsm (pp : ProjectProcess K) (E S : K → K) (Z : Draws K) (sol : Solver K) : K :=
  mean (runsN pp)
    (fun r => cashDiscRate pp E * investDiscRate pp E *
      valueCol pp E S Z sol (lastPeriod pp) r)

/-- the parameter set with the terminal multiplier replaced, all other
fields unchanged. -/
def setTerminalMultiplier (pp : ProjectProcess K) (m : K) : ProjectProcess K :=
  { pp with CashProcess := { pp.CashProcess with TerminalMultiplier := m } }

/-- the parameter set with the polynomial order replaced, all other fields
unchanged. -/
def setPolynomialOrder (pp : ProjectProcess K) (k : ℤ) : ProjectProcess K :=
  { pp with Simulation := { pp.Simulation with PolynomialOrder := k } }

/-- a concrete exp model that is constantly one, for evaluations over ℚ. -/
def expOne : ℚ → ℚ := fun _ => 1

/-- a concrete sqrt model that is constantly zero, for evaluations over ℚ. -/
def sqrtZero : ℚ → ℚ := fun _ => 0

/-- the all-zero draw stream. -/
def drawsZero : Draws ℚ := ⟨fun _ _ => 0, fun _ _ => 0⟩

/-- a solver returning the zero coefficient vector. -/
def solZero : Solver ℚ := fun _ _ _ _ => 0

/-- a solver that interpolates a single observation row through the
constant basis feature: fitted value at row 0 equals the target at row 0. -/
def solInterp : Solver ℚ := fun _ _ y j => if j = 0 then y 0 else 0

/-- concrete two-period, one-run parameter set for witnesses. -/
def ppW : ProjectProcess ℚ where
  CashProcess :=
    { AnnualCashFlow := 1, Drift := 0, Volatility := 0, TerminalMultiplier := 5,
      RiskPremium := 0 }
  CostProcess :=
    { Investment := 0, TotalExpectedCost := 0, Volatility := 0, FailureProb := 0 }
  Correlation := 0
  RiskFreeRate := 0
  Simulation := { TimeStep := 1, PatentLength := 2, Runs := 1, PolynomialOrder := 9 }

/-- concrete single-period, one-run parameter set. -/
def ppSingle : ProjectProcess ℚ :=
  { ppW with Simulation := { TimeStep := 1, PatentLength := 1, Runs := 1, PolynomialOrder := 9 } }

/-- a single-period parameter set with an out-of-range correlation. -/
def ppBadCorr : ProjectProcess ℚ := { ppSingle with Correlation := 2 }

/-- a single-period parameter set with a negative annual cash flow level. -/
def ppNegCash : ProjectProcess ℚ :=
  { ppSingle with CashProcess := { ppSingle.CashProcess with AnnualCashFlow := -1 } }

/-- each cell of the cost matrix is non-negative: every stored value is
either zero or the update clamped at zero from below. -/
theorem costStep_nonneg (pp : ProjectProcess K) (S : K → K) (prevCost eps : K) :
    0 ≤ costStep pp S prevCost eps := by
  unfold costStep
  split
  · dsimp only
    split
    · exact le_refl 0
    · next h => exact not_lt.mp h
  · exact le_refl 0

/-- non-negativity of the whole simulated cost path. -/
theorem cost_nonneg (pp : ProjectProcess K) (S : K → K) (Z : Draws K) (r : ℕ) :
    ∀ p, 0 ≤ cost pp S Z r p := by
  intro p
  cases p with
  | zero => exact costStep_nonneg pp S _ _
  | succ p => exact costStep_nonneg pp S _ _

/-- a zero previous cost stays zero after one step. -/
theorem costStep_zero (pp : ProjectProcess K) (S : K → K) (eps : K) :
    costStep pp S 0 eps = 0 := by
  unfold costStep
  simp

/-- zero cost is absorbing along a run. -/
theorem cost_absorbing (pp : ProjectProcess K) (S : K → K) (Z : Draws K) (r : ℕ) :
    ∀ p q, p ≤ q → cost pp S Z r p = 0 → cost pp S Z r q = 0 := by
  intro p q hpq h0
  induction q, hpq using Nat.le_induction with
  | base => exact h0
  | succ q _ ih => rw [cost, ih, costStep_zero]

/-- the cost path does not read the terminal multiplier. -/
theorem cost_setTerminalMultiplier (pp : ProjectProcess K) (S : K → K) (Z : Draws K)
    (m : K) (r : ℕ) :
    ∀ p, cost (setTerminalMultiplier pp m) S Z r p = cost pp S Z r p := by
  intro p
  induction p with
  | zero => rfl
  | succ p ih =>
      rw [cost, cost, ih]
      rfl

/-- the cash path does not read the terminal multiplier. -/
theorem netCash_setTerminalMultiplier (pp : ProjectProcess K) (E S : K → K) (Z : Draws K)
    (m : K) (r : ℕ) :
    ∀ p, netCash (setTerminalMultiplier pp m) E S Z r p = netCash pp E S Z r p := by
  intro p
  induction p with
  | zero => rfl
  | succ p ih =>
      rw [netCash, netCash, ih]
      rfl

/-- the cost path does not read the polynomial order. -/
theorem cost_setPolynomialOrder (pp : ProjectProcess K) (S : K → K) (Z : Draws K)
    (k : ℤ) (r : ℕ) :
    ∀ p, cost (setPolynomialOrder pp k) S Z r p = cost pp S Z r p := by
  intro p
  induction p with
  | zero => rfl
  | succ p ih =>
      rw [cost, cost, ih]
      rfl

/-- the cash path does not read the polynomial order. -/
theorem netCash_setPolynomialOrder (pp : ProjectProcess K) (E S : K → K) (Z : Draws K)
    (k : ℤ) (r : ℕ) :
    ∀ p, netCash (setPolynomialOrder pp k) E S Z r p = netCash pp E S Z r p := by
  intro p
  induction p with
  | zero => rfl
  | succ p ih =>
      rw [netCash, netCash, ih]
      rfl

/-- the basis matrix does not read the terminal multiplier. -/
theorem basisMatrix_setTerminalMultiplier (pp : ProjectProcess K) (E S : K → K)
    (Z : Draws K) (m : K) :
    basisMatrix (setTerminalMultiplier pp m) E S Z = basisMatrix pp E S Z := by
  funext p r
  unfold basisMatrix
  rw [cost_setTerminalMultiplier, netCash_setTerminalMultiplier]

/-- the basis matrix does not read the polynomial order. -/
theorem basisMatrix_setPolynomialOrder (pp : ProjectProcess K) (E S : K → K)
    (Z : Draws K) (k : ℤ) :
    basisMatrix (setPolynomialOrder pp k) E S Z = basisMatrix pp E S Z := by
  funext p r
  unfold basisMatrix
  rw [cost_setPolynomialOrder, netCash_setPolynomialOrder]

/-- the backward value iteration does not read the polynomial order. -/
theorem valueCol_setPolynomialOrder (pp : ProjectProcess K) (E S : K → K) (Z : Draws K)
    (sol : Solver K) (k0 : ℤ) :
    ∀ k r, valueCol (setPolynomialOrder pp k0) E S Z sol k r = valueCol pp E S Z sol k r := by
  intro k
  induction k with
  | zero =>
      intro r
      show termVal (setPolynomialOrder pp k0) E S Z r _ = _
      unfold termVal
      rw [cost_setPolynomialOrder, netCash_setPolynomialOrder]
      rfl
  | succ k ih =>
      intro r
      show valueStep (setPolynomialOrder pp k0) E S Z sol _ _ r = valueStep pp E S Z sol _ _ r
      have hcol : valueCol (setPolynomialOrder pp k0) E S Z sol k = valueCol pp E S Z sol k :=
        funext ih
      rw [hcol]
      unfold valueStep
      rw [cost_setPolynomialOrder, netCash_setPolynomialOrder, basisMatrix_setPolynomialOrder]
      rfl

/-- non-negativity of the simulated cash path when the annual cash flow
level and every exp value are non-negative. -/
theorem netCash_nonneg (pp : ProjectProcess K) (E S : K → K) (Z : Draws K) (r : ℕ)
    (hE : ∀ x, 0 ≤ E x) (hA : 0 ≤ pp.CashProcess.AnnualCashFlow) :
    ∀ p, 0 ≤ netCash pp E S Z r p := by
  intro p
  induction p with
  | zero => exact mul_nonneg hA (hE _)
  | succ p ih => exact mul_nonneg ih (hE _)

/-- replacing the terminal multiplier stores the new multiplier. -/
theorem setTM_multiplier (pp : ProjectProcess K) (m : K) :
    (setTerminalMultiplier pp m).CashProcess.TerminalMultiplier = m := rfl

/-- replacing the terminal multiplier leaves the period count unchanged. -/
theorem lastPeriod_setTM (pp : ProjectProcess K) (m : K) :
    lastPeriod (setTerminalMultiplier pp m) = lastPeriod pp := rfl

/-- replacing the terminal multiplier leaves the run count unchanged. -/
theorem runsN_setTM (pp : ProjectProcess K) (m : K) :
    runsN (setTerminalMultiplier pp m) = runsN pp := rfl

/-- replacing the terminal multiplier leaves the cash discount factor unchanged. -/
theorem cashDiscRate_setTM (pp : ProjectProcess K) (E : K → K) (m : K) :
    cashDiscRate (setTerminalMultiplier pp m) E = cashDiscRate pp E := rfl

/-- replacing the terminal multiplier leaves the investment discount factor unchanged. -/
theorem investDiscRate_setTM (pp : ProjectProcess K) (E : K → K) (m : K) :
    investDiscRate (setTerminalMultiplier pp m) E = investDiscRate pp E := rfl

/-- replacing the terminal multiplier leaves the investment rate unchanged. -/
theorem investment_setTM (pp : ProjectProcess K) (m : K) :
    (setTerminalMultiplier pp m).CostProcess.Investment = pp.CostProcess.Investment := rfl

/-- replacing the terminal multiplier leaves the time step unchanged. -/
theorem timeStep_setTM (pp : ProjectProcess K) (m : K) :
    (setTerminalMultiplier pp m).Simulation.TimeStep = pp.Simulation.TimeStep := rfl

/-- monotone comparison of the backward value iteration under an increase
of the terminal multiplier, given non-negative exp values, a non-negative
annual cash flow level, and a solver whose fitted values reproduce the
regression target on the sampled rows (an exact fit). -/
theorem valueCol_mono_terminalMultiplier (pp : ProjectProcess K) (E S : K → K)
    (Z : Draws K) (sol : Solver K) (m m' : K) (hm : m ≤ m') (hE : ∀ x, 0 ≤ E x)
    (hA : 0 ≤ pp.CashProcess.AnnualCashFlow)
    (hfit : ∀ p y r, r < runsN pp →
      estVal sol (basisMatrix pp E S Z p) (runsN pp) y r = y r) :
    ∀ k r, r < runsN pp →
      valueCol (setTerminalMultiplier pp m) E S Z sol k r ≤
        valueCol (setTerminalMultiplier pp m') E S Z sol k r := by
  intro k
  induction k with
  | zero =>
      intro r _
      show termVal (setTerminalMultiplier pp m) E S Z r _ ≤
        termVal (setTerminalMultiplier pp m') E S Z r _
      unfold termVal
      rw [cost_setTerminalMultiplier, cost_setTerminalMultiplier,
        netCash_setTerminalMultiplier, netCash_setTerminalMultiplier,
        lastPeriod_setTM, lastPeriod_setTM, setTM_multiplier, setTM_multiplier]
      by_cases h : cost pp S Z r (lastPeriod pp) = 0
      · rw [if_pos h, if_pos h]
        exact mul_le_mul_of_nonneg_right hm (netCash_nonneg pp E S Z r hE hA _)
      · rw [if_neg h, if_neg h]
  | succ k ih =>
      intro r hr
      show valueStep (setTerminalMultiplier pp m) E S Z sol _ _ r ≤
        valueStep (setTerminalMultiplier pp m') E S Z sol _ _ r
      unfold valueStep nextValVec
      rw [cost_setTerminalMultiplier, cost_setTerminalMultiplier,
        netCash_setTerminalMultiplier, netCash_setTerminalMultiplier,
        basisMatrix_setTerminalMultiplier, basisMatrix_setTerminalMultiplier,
        lastPeriod_setTM, lastPeriod_setTM, runsN_setTM, runsN_setTM,
        investment_setTM, investment_setTM, timeStep_setTM, timeStep_setTM,
        investDiscRate_setTM, investDiscRate_setTM,
        cashDiscRate_setTM, cashDiscRate_setTM]
      rw [hfit (lastPeriod pp - (k + 1))
          (fun i => investDiscRate pp E * valueCol (setTerminalMultiplier pp m) E S Z sol k i)
          r hr,
        hfit (lastPeriod pp - (k + 1))
          (fun i => investDiscRate pp E * valueCol (setTerminalMultiplier pp m') E S Z sol k i)
          r hr]
      have hab : investDiscRate pp E * valueCol (setTerminalMultiplier pp m) E S Z sol k r ≤
          investDiscRate pp E * valueCol (setTerminalMultiplier pp m') E S Z sol k r :=
        mul_le_mul_of_nonneg_left (ih r hr) (hE _)
      have hsub : investDiscRate pp E * valueCol (setTerminalMultiplier pp m) E S Z sol k r -
            pp.CostProcess.Investment * pp.Simulation.TimeStep ≤
          investDiscRate pp E * valueCol (setTerminalMultiplier pp m') E S Z sol k r -
            pp.CostProcess.Investment * pp.Simulation.TimeStep :=
        sub_le_sub_right hab _
      by_cases hc : cost pp S Z r (lastPeriod pp - (k + 1)) ≠ 0
      · rw [if_pos hc, if_pos hc]
        by_cases h1 : investDiscRate pp E * valueCol (setTerminalMultiplier pp m) E S Z sol k r -
            pp.CostProcess.Investment * pp.Simulation.TimeStep > 0
        · rw [if_pos h1, if_pos (lt_of_lt_of_le h1 hsub)]
          exact hsub
        · rw [if_neg h1]
          by_cases h2 : investDiscRate pp E * valueCol (setTerminalMultiplier pp m') E S Z sol k r -
              pp.CostProcess.Investment * pp.Simulation.TimeStep > 0
          · rw [if_pos h2]
            exact le_of_lt h2
          · rw [if_neg h2]
      · rw [if_neg hc, if_neg hc]
        exact add_le_add_left (mul_le_mul_of_nonneg_left (ih r hr) (hE _)) _

/-- C1: at every backward-induction period p strictly before the last and
for every run, if the cost cell is nonzero (still investing) the value cell
is the realised discounted continuation value minus the periodic outlay
exactly when the regression-fitted value minus the outlay is positive, and
stays at the zero default otherwise; if the cost cell is zero the value
cell accumulates the period cash flow plus the discounted next-period
value. -/
theorem lsm_backward_step (pp : ProjectProcess K) (E S : K → K) (Z : Draws K)
    (sol : Solver K) (r p : ℕ) (hp : p + 1 ≤ lastPeriod pp) :
    valueArray pp E S Z sol r p =
      if cost pp S Z r p ≠ 0 then
        if estVal sol (basisMatrix pp E S Z p) (runsN pp)
              (fun i => investDiscRate pp E * valueArray pp E S Z sol i (p + 1)) r -
            pp.CostProcess.Investment * pp.Simulation.TimeStep > 0 then
          investDiscRate pp E * valueArray pp E S Z sol r (p + 1) -
            pp.CostProcess.Investment * pp.Simulation.TimeStep
        else 0
      else
        netCash pp E S Z r p * pp.Simulation.TimeStep +
          cashDiscRate pp E * valueArray pp E S Z sol r (p + 1) := by
  have hk : lastPeriod pp - p = (lastPeriod pp - (p + 1)) + 1 := by omega
  have hpi : lastPeriod pp - (lastPeriod pp - (p + 1) + 1) = p := by omega
  unfold valueArray
  rw [hk]
  simp only [valueCol]
  rw [hpi]
  rfl

/-- C1 witness: the backward step at a concrete two-period parameter set. -/
theorem lsm_backward_step_witness :
    valueArray ppW expOne sqrtZero drawsZero solZero 0 0 =
      if cost ppW sqrtZero drawsZero 0 0 ≠ 0 then
        if estVal solZero (basisMatrix ppW expOne sqrtZero drawsZero 0) (runsN ppW)
              (fun i => investDiscRate ppW expOne *
                valueArray ppW expOne sqrtZero drawsZero solZero i 1) 0 -
            ppW.CostProcess.Investment * ppW.Simulation.TimeStep > 0 then
          investDiscRate ppW expOne * valueArray ppW expOne sqrtZero drawsZero solZero 0 1 -
            ppW.CostProcess.Investment * ppW.Simulation.TimeStep
        else 0
      else
        netCash ppW expOne sqrtZero drawsZero 0 0 * ppW.Simulation.TimeStep +
          cashDiscRate ppW expOne * valueArray ppW expOne sqrtZero drawsZero solZero 0 1 :=
  lsm_backward_step ppW expOne sqrtZero drawsZero solZero 0 0 (by
    have h : lastPeriod ppW = 1 := by
      norm_num [lastPeriod, numberOfPeriods, trunc, ppW]
      rfl
    omega)

/-- C2: the two discount factors are exp applied to the negated risk-free
rate scaled by the time step, and to the negated sum of risk-free rate and
failure probability scaled by the time step; the regression target at a
period applies the investment discount factor to the next-period value
column uniformly for every run, with no dependence on the phase of the
run. -/
theorem lsm_discount_rates_and_target (pp : ProjectProcess K) (E S : K → K)
    (Z : Draws K) (sol : Solver K) (p r : ℕ) :
    cashDiscRate pp E = E (-(pp.RiskFreeRate * pp.Simulation.TimeStep)) ∧
    investDiscRate pp E =
      E (-((pp.RiskFreeRate + pp.CostProcess.FailureProb) * pp.Simulation.TimeStep)) ∧
    nextValVec pp E (fun i => valueArray pp E S Z sol i (p + 1)) r =
      investDiscRate pp E * valueArray pp E S Z sol r (p + 1) := by
  refine ⟨?_, ?_, rfl⟩
  · unfold cashDiscRate
    ring_nf
  · unfold investDiscRate
    ring_nf

/-- C3: the terminal column of the value array is the terminal multiplier
times the final cash flow when the cost cell at the horizon is zero, and
zero (the zero-initialised default) when the cost cell is still positive. -/
theorem lsm_terminal_value (pp : ProjectProcess K) (E S : K → K) (Z : Draws K)
    (sol : Solver K) (r : ℕ) :
    valueArray pp E S Z sol r (lastPeriod pp) =
      if 0 < cost pp S Z r (lastPeriod pp) then 0
      else pp.CashProcess.TerminalMultiplier * netCash pp E S Z r (lastPeriod pp) := by
  unfold valueArray
  rw [Nat.sub_self]
  show termVal pp E S Z r (lastPeriod pp) = _
  unfold termVal
  by_cases h : cost pp S Z r (lastPeriod pp) = 0
  · rw [if_pos h, if_neg (by rw [h]; exact lt_irrefl 0)]
  · have hlt : 0 < cost pp S Z r (lastPeriod pp) :=
      lt_of_le_of_ne (cost_nonneg pp S Z r _) (Ne.symm h)
    rw [if_neg h, if_pos hlt]

/-- C4: each cash cell is the previous level times the geometric Brownian
motion factor with risk-adjusted drift, where the correlated cash shock is
the correlation times the cost shock plus sqrt of one minus the squared
correlation times the auxiliary draw; the period-0 previous level is the
nominal annual cash flow level, not scaled by the time step. -/
theorem netCash_gbm_step (pp : ProjectProcess K) (E S : K → K) (Z : Draws K) (r : ℕ) :
    (netCash pp E S Z r 0 =
      pp.CashProcess.AnnualCashFlow *
        E ((pp.CashProcess.Drift - pp.CashProcess.RiskPremium -
              (1 / 2) * sqr pp.CashProcess.Volatility) * pp.Simulation.TimeStep +
            pp.CashProcess.Volatility * S pp.Simulation.TimeStep *
              (pp.Correlation * Z.costEps r 0 +
                S (1 - sqr pp.Correlation) * Z.cashAux r 0))) ∧
    ∀ p, netCash pp E S Z r (p + 1) =
      netCash pp E S Z r p *
        E ((pp.CashProcess.Drift - pp.CashProcess.RiskPremium -
              (1 / 2) * sqr pp.CashProcess.Volatility) * pp.Simulation.TimeStep +
            pp.CashProcess.Volatility * S pp.Simulation.TimeStep *
              (pp.Correlation * Z.costEps r (p + 1) +
                S (1 - sqr pp.Correlation) * Z.cashAux r (p + 1))) :=
  ⟨rfl, fun _ => rfl⟩

/-- C5: the cost path is non-negative at every period, zero is absorbing,
the update while the previous cost is positive is the decrement process
clamped at zero from below, and the argument passed to sqrt is always
non-negative when the investment rate, time step and total expected cost
are non-negative. -/
theorem cost_process_invariants (pp : ProjectProcess K) (S : K → K) (Z : Draws K)
    (r : ℕ) (hI : 0 ≤ pp.CostProcess.Investment) (ht : 0 ≤ pp.Simulation.TimeStep)
    (hT : 0 ≤ pp.CostProcess.TotalExpectedCost) :
    (∀ p, 0 ≤ cost pp S Z r p) ∧
    (∀ p q, p ≤ q → cost pp S Z r p = 0 → cost pp S Z r q = 0) ∧
    (∀ p, 0 < cost pp S Z r p →
      cost pp S Z r (p + 1) =
        (let nextCost := cost pp S Z r p -
            pp.CostProcess.Investment * pp.Simulation.TimeStep +
            pp.CostProcess.Volatility *
              S (pp.CostProcess.Investment * cost pp S Z r p * pp.Simulation.TimeStep) *
              Z.costEps r (p + 1)
         if nextCost < 0 then 0 else nextCost)) ∧
    0 ≤ pp.CostProcess.Investment * pp.CostProcess.TotalExpectedCost *
        pp.Simulation.TimeStep ∧
    (∀ p, 0 ≤ pp.CostProcess.Investment * cost pp S Z r p * pp.Simulation.TimeStep) := by
  refine ⟨cost_nonneg pp S Z r, cost_absorbing pp S Z r, ?_, ?_, ?_⟩
  · intro p hp
    rw [cost]
    unfold costStep
    rw [if_pos (ne_of_gt hp)]
  · exact mul_nonneg (mul_nonneg hI hT) ht
  · intro p
    exact mul_nonneg (mul_nonneg hI (cost_nonneg pp S Z r p)) ht

/-- C5 witness: the invariants applied at a concrete parameter set. -/
theorem cost_process_invariants_witness :
    (0 ≤ ppW.CostProcess.Investment ∧ 0 ≤ ppW.Simulation.TimeStep ∧
      0 ≤ ppW.CostProcess.TotalExpectedCost) ∧
    0 ≤ cost ppW sqrtZero drawsZero 0 1 :=
  ⟨⟨by norm_num [ppW], by norm_num [ppW], by norm_num [ppW]⟩,
    (cost_process_invariants ppW sqrtZero drawsZero 0 (by norm_num [ppW])
      (by norm_num [ppW]) (by norm_num [ppW])).1 1⟩

/-- C6: the valuation result is the arithmetic mean over the runs of the
period-0 value column scaled by the product of the two discount factors. -/
theorem lsm_final_aggregation (pp : ProjectProcess K) (E S : K → K) (Z : Draws K)
    (sol : Solver K) :
    Lsm pp E S Z sol =
      (∑ r ∈ Finset.range (runsN pp),
        cashDiscRate pp E * investDiscRate pp E * valueArray pp E S Z sol r 0) /
        (runsN pp : K) := by
  unfold Lsm mean valueArray
  rw [Nat.sub_zero]

/-- C9: with a single-period horizon the valuation is the mean across runs
of the terminal payoff discounted once by the product of the two discount
factors, independently of the solver, so no regression result is used. -/
theorem lsm_single_period (pp : ProjectProcess K) (E S : K → K) (Z : Draws K)
    (h : numberOfPeriods pp = 1) :
    ∀ sol : Solver K, Lsm pp E S Z sol =
      (∑ r ∈ Finset.range (runsN pp),
        cashDiscRate pp E * investDiscRate pp E *
          (if cost pp S Z r 0 = 0 then
            pp.CashProcess.TerminalMultiplier * netCash pp E S Z r 0
          else 0)) / (runsN pp : K) := by
  intro sol
  have hl : lastPeriod pp = 0 := by
    rw [lastPeriod, h]
    rfl
  unfold Lsm mean
  rw [hl]
  simp only [valueCol, termVal, hl]

/-- C9 witness: the single-period closed form at a concrete parameter set. -/
theorem lsm_single_period_witness :
    Lsm ppSingle expOne sqrtZero drawsZero solZero =
      (∑ r ∈ Finset.range (runsN ppSingle),
        cashDiscRate ppSingle expOne * investDiscRate ppSingle expOne *
          (if cost ppSingle sqrtZero drawsZero r 0 = 0 then
            ppSingle.CashProcess.TerminalMultiplier *
              netCash ppSingle expOne sqrtZero drawsZero r 0
          else 0)) / (runsN ppSingle : ℚ) :=
  lsm_single_period ppSingle expOne sqrtZero drawsZero
    (by norm_num [numberOfPeriods, trunc, ppSingle, ppW]) solZero

/-- C10: the valuation does not read the PolynomialOrder field: parameter
sets differing only in that field give identical results on the same
draws, with any solver. -/
theorem lsm_polynomialOrder_independent (pp : ProjectProcess K) (E S : K → K)
    (Z : Draws K) (sol : Solver K) (k : ℤ) :
    Lsm (setPolynomialOrder pp k) E S Z sol = Lsm pp E S Z sol := by
  unfold Lsm mean
  have h1 : runsN (setPolynomialOrder pp k) = runsN pp := rfl
  have h2 : lastPeriod (setPolynomialOrder pp k) = lastPeriod pp := rfl
  rw [h1, h2]
  congr 1
  apply Finset.sum_congr rfl
  intro r _
  dsimp only
  rw [valueCol_setPolynomialOrder]
  rfl

/-- C7 counterexample: with a negative annual cash flow level and fixed
draws, raising the terminal multiplier from 1 to 2 strictly lowers the
estimated value, refuting the claim as stated over every parameter set. -/
theorem lsm_terminalMultiplier_not_monotone :
    (1 : ℚ) ≤ 2 ∧
      Lsm (setTerminalMultiplier ppNegCash 2) expOne sqrtZero drawsZero solZero <
        Lsm (setTerminalMultiplier ppNegCash 1) expOne sqrtZero drawsZero solZero := by
  have key : ∀ m : ℚ, Lsm (setTerminalMultiplier ppNegCash m) expOne sqrtZero drawsZero
      solZero = -m := by
    intro m
    have h1 : lastPeriod (setTerminalMultiplier ppNegCash m) = 0 := by
      norm_num [lastPeriod, numberOfPeriods, trunc, setTerminalMultiplier, ppNegCash,
        ppSingle, ppW]
    have h2 : runsN (setTerminalMultiplier ppNegCash m) = 1 := by
      norm_num [runsN, setTerminalMultiplier, ppNegCash, ppSingle, ppW]
    rw [Lsm, h1, h2, mean, Finset.sum_range_one]
    simp only [valueCol, termVal]
    rw [h1]
    simp [cost, costStep, netCash, cashStep, cashEps, cashDiscRate, investDiscRate,
      expOne, sqrtZero, drawsZero, setTerminalMultiplier, ppNegCash, ppSingle, ppW]
  rw [key 1, key 2]
  norm_num

/-- C7 amended: increasing the terminal multiplier with all other
parameters and draws fixed does not decrease the estimated value, provided
the annual cash flow level is non-negative, the exp values are
non-negative, and the solver reproduces the regression target on the
sampled rows (an exact fit, as the minimum-norm least-squares solution
gives when the observations do not outnumber the basis features). -/
theorem lsm_terminalMultiplier_monotone (pp : ProjectProcess K) (E S : K → K)
    (Z : Draws K) (sol : Solver K) (m m' : K) (hm : m ≤ m') (hE : ∀ x, 0 ≤ E x)
    (hA : 0 ≤ pp.CashProcess.AnnualCashFlow)
    (hfit : ∀ p y r, r < runsN pp →
      estVal sol (basisMatrix pp E S Z p) (runsN pp) y r = y r) :
    Lsm (setTerminalMultiplier pp m) E S Z sol ≤
      Lsm (setTerminalMultiplier pp m') E S Z sol := by
  unfold Lsm mean
  rw [runsN_setTM, runsN_setTM, lastPeriod_setTM, lastPeriod_setTM,
    cashDiscRate_setTM, cashDiscRate_setTM, investDiscRate_setTM, investDiscRate_setTM]
  rcases Nat.eq_zero_or_pos (runsN pp) with h0 | hpos
  · rw [h0]
    simp
  · have hc : (0 : K) < (runsN pp : K) := by exact_mod_cast hpos
    rw [div_le_div_iff_of_pos_right hc]
    apply Finset.sum_le_sum
    intro r hr
    exact mul_le_mul_of_nonneg_left
      (valueCol_mono_terminalMultiplier pp E S Z sol m m' hm hE hA hfit
        (lastPeriod pp) r (Finset.mem_range.mp hr))
      (mul_nonneg (hE _) (hE _))

/-- C7 witness: the amended monotonicity at a concrete one-run parameter
set with an interpolating solver. -/
theorem lsm_terminalMultiplier_monotone_witness :
    (1 : ℚ) ≤ 2 ∧
      Lsm (setTerminalMultiplier ppW 1) expOne sqrtZero drawsZero solInterp ≤
        Lsm (setTerminalMultiplier ppW 2) expOne sqrtZero drawsZero solInterp :=
  ⟨by norm_num,
    lsm_terminalMultiplier_monotone ppW expOne sqrtZero drawsZero solInterp 1 2
      (by norm_num) (fun x => by norm_num [expOne]) (by norm_num [ppW])
      (by
        intro p y r hr
        have hn : runsN ppW = 1 := by norm_num [runsN, ppW]
        rw [hn] at hr
        interval_cases r
        simp [estVal, basisMatrix, basis, solInterp, Fin.sum_univ_succ])⟩

/-- C8 counterexample: at a parameter set with correlation 2 (out of
range) the valuation still computes and returns a numeric value, so no
InvalidParameters error is surfaced and a value is returned. -/
theorem lsm_invalid_correlation_returns_value :
    1 < |ppBadCorr.Correlation| ∧
      Lsm ppBadCorr expOne sqrtZero drawsZero solZero = 5 := by
  constructor
  · norm_num [ppBadCorr, ppSingle, ppW]
  · have h1 : lastPeriod ppBadCorr = 0 := by
      norm_num [lastPeriod, numberOfPeriods, trunc, ppBadCorr, ppSingle, ppW]
    have h2 : runsN ppBadCorr = 1 := by norm_num [runsN, ppBadCorr, ppSingle, ppW]
    rw [Lsm, h1, h2, mean, Finset.sum_range_one]
    simp only [valueCol, termVal]
    rw [h1]
    simp [cost, costStep, netCash, cashStep, cashEps, cashDiscRate, investDiscRate,
      expOne, sqrtZero, drawsZero, ppBadCorr, ppSingle, ppW]

/-- C8 amended: the valuation performs no parameter validation: even with
an out-of-range correlation it proceeds and returns the aggregated mean of
the discounted period-0 value column, rather than surfacing an error. -/
theorem lsm_no_validation (pp : ProjectProcess K) (E S : K → K) (Z : Draws K)
    (sol : Solver K) (h : 1 < |pp.Correlation|) :
    Lsm pp E S Z sol =
      (∑ r ∈ Finset.range (runsN pp),
        cashDiscRate pp E * investDiscRate pp E *
          valueCol pp E S Z sol (lastPeriod pp) r) / (runsN pp : K) := by
  unfold Lsm mean
  rfl

/-- C8 witness: the no-validation theorem applied at the out-of-range
correlation parameter set. -/
theorem lsm_no_validation_witness :
    Lsm ppBadCorr expOne sqrtZero drawsZero solZero =
      (∑ r ∈ Finset.range (runsN ppBadCorr),
        cashDiscRate ppBadCorr expOne * investDiscRate ppBadCorr expOne *
          valueCol ppBadCorr expOne sqrtZero drawsZero solZero (lastPeriod ppBadCorr) r) /
        (runsN ppBadCorr : ℚ) :=
  lsm_no_validation ppBadCorr expOne sqrtZero drawsZero solZero
    (by norm_num [ppBadCorr, ppSingle, ppW])

end RealOptions
